import Mathlib

set_option maxRecDepth 100000

/-!
Verification development for the meal-photo analysis service
(`services/geminiService.ts`): a shallow embedding of the
`analyzeImageWithGemini` flow — media-type validation, request
construction, upstream response handling, and the tolerant
JSON extraction applied to the model's free-text reply —
together with theorems settling the specification's claims.

Text is modelled as `List Char`.  JavaScript's `JSON.parse` is
modelled by an executable recursive-descent parser over a JSON value
type (`Json`); numbers are modelled as integers (sufficient for every
claim considered here), and `\uXXXX` string escapes are not modelled.
-/

/-- JSON values, as produced by `JSON.parse`.  Object fields are kept
in source order; duplicate keys do not arise in any input considered
here. -/
inductive Json where
  | null : Json
  | bool : Bool → Json
  | num : Int → Json
  | str : List Char → Json
  | arr : List Json → Json
  | obj : List (List Char × Json) → Json

/-- First-match field lookup in a JSON object. -/
def lookupField : List (List Char × Json) → List Char → Option Json
  | [], _ => none
  | (k, v) :: rest, key => if k = key then some v else lookupField rest key

/-- JavaScript property access `o?.k`: a field lookup on objects,
`undefined` (`none`) on everything else (including `null`, which the
optional chain short-circuits). -/
def jget (j : Json) (key : List Char) : Option Json :=
  match j with
  | Json.obj fields => lookupField fields key
  | _ => none

/-- JavaScript index access `a?.[i]`: array element, single-character
string for string indexing, `undefined` (`none`) otherwise. -/
def jIndex (j : Json) (i : Nat) : Option Json :=
  match j with
  | Json.arr xs => xs.get? i
  | Json.str s => (s.get? i).map (fun c => Json.str [c])
  | _ => none

/-- JavaScript truthiness of a possibly-undefined value, as used by
`if (!text)` and by `a || b`:  `undefined`, `null`, `false`, `0` and
the empty string are falsy. -/
def jsTruthy : Option Json → Bool
  | none => false
  | some Json.null => false
  | some (Json.bool b) => b
  | some (Json.num n) => !(n == 0)
  | some (Json.str s) => !s.isEmpty
  | some (Json.arr _) => true
  | some (Json.obj _) => true

/-- JSON insignificant whitespace (RFC 8259): space, tab, LF, CR. -/
def isJsonWsB (c : Char) : Bool :=
  c == '\t' || c == '\n' || c == '\r' || c == ' '

/-- Whitespace for JavaScript's `String.prototype.trim` (the ASCII
part, which is all that arises here). -/
def isTrimWsB (c : Char) : Bool :=
  c == '\t' || c == '\n' || c == '\x0b' || c == '\x0c' || c == '\r' || c == ' '

/-- Skip JSON whitespace. -/
def skipWs (s : List Char) : List Char := s.dropWhile isJsonWsB

/-- Remove trailing whitespace. -/
def trimRight (s : List Char) : List Char :=
  (s.reverse.dropWhile isTrimWsB).reverse

/-- JavaScript `s.trim()`. -/
def jsTrim (s : List Char) : List Char :=
  (trimRight s).dropWhile isTrimWsB

/-- JSON string escape table (`\uXXXX` is not modelled): each escape
letter paired with the character it denotes. -/
def escTable : List (Char × Char) :=
  [('n', '\n'), ('t', '\t'), ('r', '\r'), ('b', '\x08'), ('f', '\x0c'),
   ('"', '"'), ('\\', '\\'), ('/', '/')]

/-- JSON string escape characters, via the table. -/
def escChar (e : Char) : Option Char := escTable.lookup e

/-- Body of a JSON string literal (after the opening quote): returns
the decoded characters and the remaining input after the closing
quote. -/
def parseStringBody : List Char → Option (List Char × List Char)
  | [] => none
  | '"' :: rest => some ([], rest)
  | '\\' :: e :: rest =>
    (match escChar e, parseStringBody rest with
     | some c, some (cs, r1) => some (c :: cs, r1)
     | _, _ => none)
  | c :: rest =>
    (match parseStringBody rest with
     | some (cs, r1) => some (c :: cs, r1)
     | none => none)

/-- Decimal digit test (code points 48 through 57). -/
def isDigitB (c : Char) : Bool := 48 ≤ c.toNat && c.toNat ≤ 57

/-- Value of a decimal digit character. -/
def digitVal (c : Char) : Nat := c.toNat - 48

/-- JSON integer literal: optional minus sign followed by digits.
Fractional and exponent forms are not modelled (a trailing `.` or `e`
is left in the remainder, making the overall parse fail). -/
def parseNum (s : List Char) : Option (Int × List Char) :=
  let (neg, s1) := match s with
    | '-' :: rest => (true, rest)
    | _ => (false, s)
  let digits := s1.takeWhile isDigitB
  let rest := s1.dropWhile isDigitB
  if digits.isEmpty then none
  else
    let n : Nat := digits.foldl (fun acc d => acc * 10 + digitVal d) 0
    some (if neg then -(n : Int) else (n : Int), rest)

/-- Parsing mode: a single value, the tail of an array, or the tail of
an object (defunctionalised so the parser is a single structural
recursion on fuel, hence kernel-reducible). -/
inductive PMode where
  | val : PMode
  | elems : List Json → PMode
  | fields : List (List Char × Json) → PMode

/-- Fueled recursive-descent JSON parser core. -/
def parseCore : Nat → PMode → List Char → Option (Json × List Char)
  | 0, _, _ => none
  | f + 1, PMode.val, s =>
    match skipWs s with
    | 'n' :: 'u' :: 'l' :: 'l' :: r => some (Json.null, r)
    | 't' :: 'r' :: 'u' :: 'e' :: r => some (Json.bool true, r)
    | 'f' :: 'a' :: 'l' :: 's' :: 'e' :: r => some (Json.bool false, r)
    | '"' :: r =>
      match parseStringBody r with
      | some (cs, r1) => some (Json.str cs, r1)
      | none => none
    | '[' :: r =>
      (match skipWs r with
       | ']' :: r1 => some (Json.arr [], r1)
       | r2 => parseCore f (PMode.elems []) r2)
    | '\x7b' :: r =>
      (match skipWs r with
       | '\x7d' :: r1 => some (Json.obj [], r1)
       | r2 => parseCore f (PMode.fields []) r2)
    | s2 =>
      match parseNum s2 with
      | some (n, r1) => some (Json.num n, r1)
      | none => none
  | f + 1, PMode.elems acc, s =>
    match parseCore f PMode.val s with
    | some (v, r) =>
      (match skipWs r with
       | ',' :: r2 => parseCore f (PMode.elems (acc ++ [v])) r2
       | ']' :: r2 => some (Json.arr (acc ++ [v]), r2)
       | _ => none)
    | none => none
  | f + 1, PMode.fields acc, s =>
    match skipWs s with
    | '"' :: r =>
      (match parseStringBody r with
       | some (key, r1) =>
         (match skipWs r1 with
          | ':' :: r2 =>
            (match parseCore f PMode.val r2 with
             | some (v, r3) =>
               (match skipWs r3 with
                | ',' :: r4 => parseCore f (PMode.fields (acc ++ [(key, v)])) r4
                | '\x7d' :: r4 => some (Json.obj (acc ++ [(key, v)]), r4)
                | _ => none)
             | none => none)
          | _ => none)
       | none => none)
    | _ => none

/-- `JSON.parse`: parse one JSON value and require only whitespace to
follow. -/
def parseJson (s : List Char) : Option Json :=
  match parseCore (2 * s.length + 2) PMode.val s with
  | some (j, r) => if (skipWs r).isEmpty then some j else none
  | none => none

/-- `text.replace(/```json|```/g, "")`: left-to-right scan deleting
each occurrence of a fence marker, preferring the longer alternative
`` ```json `` at each position, and resuming after the deleted match. -/
def stripFences : List Char → List Char
  | '\x60' :: '\x60' :: '\x60' :: 'j' :: 's' :: 'o' :: 'n' :: rest => stripFences rest
  | '\x60' :: '\x60' :: '\x60' :: rest => stripFences rest
  | c :: rest => c :: stripFences rest
  | [] => []

/-- Index of the first occurrence of a character, if any. -/
def firstIdx : List Char → Char → Option Nat
  | [], _ => none
  | a :: rest, c => if a = c then some 0 else (firstIdx rest c).map (· + 1)

/-- Index of the last occurrence of a character, if any. -/
def lastIdx (l : List Char) (c : Char) : Option Nat :=
  (firstIdx l.reverse c).map (fun k => l.length - 1 - k)

/-- JavaScript `s.indexOf(c)`: character index or `-1`. -/
def jsIndexOf (l : List Char) (c : Char) : Int :=
  match firstIdx l c with
  | some n => (n : Int)
  | none => -1

/-- JavaScript `s.lastIndexOf(c)`: character index or `-1`. -/
def jsLastIndexOf (l : List Char) (c : Char) : Int :=
  match lastIdx l c with
  | some n => (n : Int)
  | none => -1

/-- JavaScript `s.substring(a, b)`: both arguments are clamped into
`[0, length]` (negative values become `0`) and swapped when the start
exceeds the end. -/
def jsSubstring (l : List Char) (a b : Int) : List Char :=
  let a' := a.toNat
  let b' := b.toNat
  if a' ≤ b' then (l.take b').drop a' else (l.take a').drop b'

/-- The candidate JSON payload the service slices out of the model's
raw text: strip fence markers, trim, then `substring` from
`indexOf("\x7b")` to `lastIndexOf("\x7d") + 1`
(lines 85–88 of `geminiService.ts`). -/
def jsonCandidate (text : List Char) : List Char :=
  let cleanedText := jsTrim (stripFences text)
  let jsonStart := jsIndexOf cleanedText '\x7b'
  let jsonEnd := jsLastIndexOf cleanedText '\x7d' + 1
  jsSubstring cleanedText jsonStart jsonEnd

/-- Failure modes of `analyzeImageWithGemini`, one per `throw` site.
`upstreamError` carries the value interpolated into
`` `API Error: ...` `` (the upstream message when truthy, else the
status text); `malformedPayload` carries the raw text value logged by
`console.error` for diagnostics. -/
inductive GeminiError where
  | unsupportedFormat : List Char → GeminiError
  | upstreamError : Json → GeminiError
  | emptyResponse : GeminiError
  | malformedPayload : Json → GeminiError

/-- The tolerant extraction (lines 84–93): parse the candidate slice;
on parse failure, fail with `malformedPayload` carrying the raw
text. -/
def extractMeal (text : List Char) : Except GeminiError Json :=
  match parseJson (jsonCandidate text) with
  | some j => Except.ok j
  | none => Except.error (GeminiError.malformedPayload (Json.str text))

/-- The media types accepted before any network call (line 50). -/
def supportedMimeTypes : List (List Char) :=
  ["image/jpeg".toList, "image/png".toList, "image/webp".toList,
   "image/heic".toList, "image/heif".toList]

/-- The fixed instruction prompt (lines 27–35), character for
character.  Note the template key is `meal_name`, not `name`. -/
def mealRecognitionPrompt : List Char :=
  ("You are a meal recognition AI. Identify the food in this image and return ONLY a JSON object with the following structure:\n\x7b\n  \"meal_name\": \"...\",\n  \"description\": \"...\",\n  \"calories\": 0,\n  \"protein_g\": 0,\n  \"carbs_g\": 0,\n  \"fat_g\": 0\n\x7d").toList

/-- The JSON body handed to `fetch` (lines 59–68): one turn whose
parts are the fixed instruction and the inlined base64 image with its
declared media type. -/
def buildGeminiRequest (mimeType base64Image : List Char) : Json :=
  Json.obj [("contents".toList, Json.arr [
    Json.obj [("parts".toList, Json.arr [
      Json.obj [("text".toList, Json.str mealRecognitionPrompt)],
      Json.obj [("inline_data".toList, Json.obj [
        ("mime_type".toList, Json.str mimeType),
        ("data".toList, Json.str base64Image)])]])]])]

/-- An upstream HTTP response as the service observes it: the `ok`
flag, the status text, and the (already JSON-decoded) body — the
upstream contract is a JSON envelope, so `response.json()` is modelled
as total. -/
structure GeminiResponse where
  ok : Bool
  statusText : List Char
  body : Json

/-- `errorData.error?.message` (line 73). -/
def errMsgPath (body : Json) : Option Json :=
  (jget body ("error".toList)).bind (fun e => jget e ("message".toList))

/-- `errorData.error?.message || response.statusText` (line 73): the
upstream message when truthy, else the status text. -/
def upstreamErrorMessage (body : Json) (statusText : List Char) : Json :=
  match errMsgPath body with
  | some v => if jsTruthy (some v) then v else Json.str statusText
  | none => Json.str statusText

/-- `data?.candidates?.[0]?.content?.parts?.[0]?.text` (line 77). -/
def getTextPart (body : Json) : Option Json :=
  (((((jget body ("candidates".toList)).bind (fun c => jIndex c 0)).bind
      (fun c => jget c ("content".toList))).bind
      (fun c => jget c ("parts".toList))).bind
      (fun p => jIndex p 0)).bind
      (fun p => jget p ("text".toList))

/-- The `analyzeImageWithGemini` flow (lines 43–97), given the base64
file contents, the declared media type, and the upstream response the
network would produce.  The second component is the request body
submitted to the endpoint (`none` when validation fails before any
network call).  A truthy non-string text part makes `text.replace`
throw a `TypeError`, which the inner `catch` turns into the
malformed-payload failure. -/
def analyzeImageWithGemini (base64Image mimeType : List Char)
    (resp : GeminiResponse) : Except GeminiError Json × Option Json :=
  if mimeType ∈ supportedMimeTypes then
    (if resp.ok then
       (if jsTruthy (getTextPart resp.body) then
          match getTextPart resp.body with
          | some (Json.str s) => extractMeal s
          | some v => Except.error (GeminiError.malformedPayload v)
          | none => Except.error GeminiError.emptyResponse
        else Except.error GeminiError.emptyResponse)
     else
       Except.error (GeminiError.upstreamError
         (upstreamErrorMessage resp.body resp.statusText)),
     some (buildGeminiRequest mimeType base64Image))
  else
    (Except.error (GeminiError.unsupportedFormat mimeType), none)

/-- The extraction as the specification words it (spec §4.1 steps
7–8): strip fence markers, then — when the cleaned text has a first
`\x7b` at or before its last `\x7d` — parse that inclusive span; in
every other situation, and on parse failure, fail with
`MalformedPayload` carrying the raw text. -/
def specExtractMeal (text : List Char) : Except GeminiError Json :=
  let cleaned := jsTrim (stripFences text)
  match firstIdx cleaned '\x7b', lastIdx cleaned '\x7d' with
  | some i, some j =>
    if i ≤ j then
      match parseJson ((cleaned.take (j + 1)).drop i) with
      | some js => Except.ok js
      | none => Except.error (GeminiError.malformedPayload (Json.str text))
    else Except.error (GeminiError.malformedPayload (Json.str text))
  | _, _ => Except.error (GeminiError.malformedPayload (Json.str text))

/-- The key list of the JSON template embedded in the instruction
prompt, read off by the service's own candidate slicing and parser. -/
def promptTemplateKeys : Option (List (List Char)) :=
  match parseJson (jsonCandidate mealRecognitionPrompt) with
  | some (Json.obj fs) => some (fs.map Prod.fst)
  | _ => none

/-- The spec's example of formatting noise: prefix the payload with
prose and enclose it in fences — `"Sure! ```json\n" ++ P ++ "\n```"`. -/
def wrapNoise (payload : List Char) : List Char :=
  ("Sure! ".toList ++ ['\x60', '\x60', '\x60'] ++ "json\n".toList)
    ++ payload ++ ('\n' :: ['\x60', '\x60', '\x60'])

/-- The exact success payload named by the spec's test property. -/
def applePayload : List Char :=
  ("\x7b\"name\":\"Apple\",\"description\":\"A fruit\",\"calories\":95,\"protein_g\":0,\"carbs_g\":25,\"fat_g\":0\x7d").toList

/-- The meal record the apple payload denotes. -/
def appleMealJson : Json :=
  Json.obj [("name".toList, Json.str ("Apple".toList)),
            ("description".toList, Json.str ("A fruit".toList)),
            ("calories".toList, Json.num 95),
            ("protein_g".toList, Json.num 0),
            ("carbs_g".toList, Json.num 25),
            ("fat_g".toList, Json.num 0)]

/-! ## Behaviour of `analyzeImageWithGemini`, by branch -/

lemma analyze_mem_snd (b64 mt : List Char) (resp : GeminiResponse)
    (hmt : mt ∈ supportedMimeTypes) :
    (analyzeImageWithGemini b64 mt resp).2 = some (buildGeminiRequest mt b64) := by
  simp [analyzeImageWithGemini, hmt]

lemma analyze_not_mem (b64 mt : List Char) (resp : GeminiResponse)
    (hmt : mt ∉ supportedMimeTypes) :
    analyzeImageWithGemini b64 mt resp =
      (Except.error (GeminiError.unsupportedFormat mt), none) := by
  simp [analyzeImageWithGemini, hmt]

lemma analyze_not_ok (b64 mt : List Char) (resp : GeminiResponse)
    (hmt : mt ∈ supportedMimeTypes) (hok : resp.ok = false) :
    (analyzeImageWithGemini b64 mt resp).1 =
      Except.error (GeminiError.upstreamError
        (upstreamErrorMessage resp.body resp.statusText)) := by
  simp [analyzeImageWithGemini, hmt, hok]

lemma analyze_falsy_text (b64 mt : List Char) (resp : GeminiResponse)
    (hmt : mt ∈ supportedMimeTypes) (hok : resp.ok = true)
    (ht : jsTruthy (getTextPart resp.body) = false) :
    (analyzeImageWithGemini b64 mt resp).1 =
      Except.error GeminiError.emptyResponse := by
  simp [analyzeImageWithGemini, hmt, hok, ht]

lemma analyze_str_text (b64 mt : List Char) (resp : GeminiResponse)
    (hmt : mt ∈ supportedMimeTypes) (hok : resp.ok = true)
    (s : List Char) (hs : getTextPart resp.body = some (Json.str s))
    (hne : s ≠ []) :
    (analyzeImageWithGemini b64 mt resp).1 = extractMeal s := by
  cases s with
  | nil => exact absurd rfl hne
  | cons a t => simp [analyzeImageWithGemini, hmt, hok, hs, jsTruthy]

/-! ## Membership and index lemmas for the extraction pipeline -/

lemma mem_of_mem_stripFences (c : Char) :
    ∀ l : List Char, c ∈ stripFences l → c ∈ l := by
  intro l
  induction l using stripFences.induct with
  | case1 rest ih => intro h; simp [stripFences] at h; simp [ih h]
  | case2 rest hno ih => intro h; simp [stripFences] at h; simp [ih h]
  | case3 d rest h1 h2 ih =>
    intro h
    simp only [stripFences, List.mem_cons] at h
    rcases h with h | h
    · simp [h]
    · simp [ih h]
  | case4 => intro h; simp [stripFences] at h

lemma mem_of_mem_jsTrim (c : Char) (l : List Char) :
    c ∈ jsTrim l → c ∈ l := by
  intro h
  unfold jsTrim trimRight at h
  have h1 : c ∈ (l.reverse.dropWhile isTrimWsB).reverse :=
    (List.dropWhile_sublist _).subset h
  rw [List.mem_reverse] at h1
  have h2 : c ∈ l.reverse := (List.dropWhile_sublist _).subset h1
  rwa [List.mem_reverse] at h2

lemma firstIdx_eq_none_of_not_mem (c : Char) :
    ∀ l : List Char, c ∉ l → firstIdx l c = none := by
  intro l
  induction l with
  | nil => intro _; rfl
  | cons a rest ih =>
    intro h
    rw [List.mem_cons] at h
    push_neg at h
    rw [firstIdx, if_neg (fun hac => h.1 hac.symm), ih h.2]
    rfl

lemma extractMeal_no_braces (s : List Char)
    (hob : '\x7b' ∉ s) (hcb : '\x7d' ∉ s) :
    extractMeal s = Except.error (GeminiError.malformedPayload (Json.str s)) := by
  have h1 : '\x7b' ∉ jsTrim (stripFences s) :=
    fun h => hob (mem_of_mem_stripFences _ _ (mem_of_mem_jsTrim _ _ h))
  have h2 : '\x7d' ∉ jsTrim (stripFences s) :=
    fun h => hcb (mem_of_mem_stripFences _ _ (mem_of_mem_jsTrim _ _ h))
  have e1 : jsIndexOf (jsTrim (stripFences s)) '\x7b' = -1 := by
    rw [jsIndexOf, firstIdx_eq_none_of_not_mem _ _ h1]
  have e2 : jsLastIndexOf (jsTrim (stripFences s)) '\x7d' = -1 := by
    rw [jsLastIndexOf, lastIdx, firstIdx_eq_none_of_not_mem _ _
      (fun h => h2 (List.mem_reverse.mp h))]
    rfl
  simp only [extractMeal, jsonCandidate, e1, e2]
  rfl

/-! ## Claim theorems -/

/-- C1: if the upstream call succeeds and the extracted text part is
exactly the apple payload, `analyze` returns a record carrying exactly
name "Apple", description "A fruit", calories 95, protein_g 0,
carbs_g 25, fat_g 0. -/
theorem claim_apple_payload (b64 mt : List Char) (resp : GeminiResponse)
    (hmt : mt ∈ supportedMimeTypes) (hok : resp.ok = true)
    (ht : getTextPart resp.body = some (Json.str applePayload)) :
    (analyzeImageWithGemini b64 mt resp).1 = Except.ok appleMealJson := by
  rw [analyze_str_text b64 mt resp hmt hok applePayload ht (by decide)]
  rfl

/-- C1 witness: a concrete successful response whose text part is the
apple payload. -/
theorem claim_apple_payload_witness :
    (analyzeImageWithGemini ("AAAA".toList) ("image/jpeg".toList)
      ⟨true, "OK".toList, Json.obj [("candidates".toList, Json.arr [Json.obj
        [("content".toList, Json.obj [("parts".toList, Json.arr [Json.obj
          [("text".toList, Json.str applePayload)]])])]])]⟩).1 =
      Except.ok appleMealJson :=
  claim_apple_payload _ _ _ (by decide) rfl rfl

/-- C4: for any declared media type outside the allow-list, `analyze`
fails with `UnsupportedFormat` and no request is ever built or
submitted (the second component is `none`). -/
theorem claim_unsupported_format_local (b64 mt : List Char)
    (resp : GeminiResponse) (h : mt ∉ supportedMimeTypes) :
    analyzeImageWithGemini b64 mt resp =
      (Except.error (GeminiError.unsupportedFormat mt), none) :=
  analyze_not_mem b64 mt resp h

/-- C4 witness: `image/gif` is rejected locally. -/
theorem claim_unsupported_format_local_witness :
    ("image/gif".toList ∉ supportedMimeTypes) ∧
    analyzeImageWithGemini ("AAAA".toList) ("image/gif".toList)
        ⟨true, "OK".toList, Json.null⟩ =
      (Except.error (GeminiError.unsupportedFormat ("image/gif".toList)), none) :=
  ⟨by decide, claim_unsupported_format_local _ _ _ (by decide)⟩

/-- C5: on a non-success HTTP response, `analyze` fails with
`UpstreamError` carrying the upstream-reported message when one is
present (truthy), and the status text otherwise. -/
theorem claim_upstream_error (b64 mt : List Char) (resp : GeminiResponse)
    (hmt : mt ∈ supportedMimeTypes) (hok : resp.ok = false) :
    (analyzeImageWithGemini b64 mt resp).1 =
      Except.error (GeminiError.upstreamError
        (upstreamErrorMessage resp.body resp.statusText)) ∧
    (∀ v, errMsgPath resp.body = some v → jsTruthy (some v) = true →
      upstreamErrorMessage resp.body resp.statusText = v) ∧
    ((∀ v, errMsgPath resp.body = some v → jsTruthy (some v) = false) →
      upstreamErrorMessage resp.body resp.statusText = Json.str resp.statusText) := by
  refine ⟨analyze_not_ok b64 mt resp hmt hok, ?_, ?_⟩
  · intro v hv htr
    rw [upstreamErrorMessage, hv]
    simp [htr]
  · intro hfalsy
    rw [upstreamErrorMessage]
    cases he : errMsgPath resp.body with
    | none => rfl
    | some v => simp [hfalsy v he]

/-- C5 witness: an error response whose error message field is
"quota exceeded" carries exactly that message. -/
theorem claim_upstream_error_witness :
    (analyzeImageWithGemini ("AAAA".toList) ("image/jpeg".toList)
      ⟨false, "Too Many Requests".toList,
        Json.obj [("error".toList, Json.obj
          [("message".toList, Json.str ("quota exceeded".toList))])]⟩).1 =
      Except.error (GeminiError.upstreamError
        (Json.str ("quota exceeded".toList))) := by
  have h := claim_upstream_error ("AAAA".toList) ("image/jpeg".toList)
    ⟨false, "Too Many Requests".toList,
      Json.obj [("error".toList, Json.obj
        [("message".toList, Json.str ("quota exceeded".toList))])]⟩
    (by decide) rfl
  rw [h.1, h.2.1 (Json.str ("quota exceeded".toList)) rfl rfl]

/-- C7: on a success response, `analyze` extracts the first
candidate's first text part; when it is absent the call fails with
`EmptyResponse`, and when it is a non-empty string the tolerant
extraction is applied to it. -/
theorem claim_text_part_extraction (b64 mt : List Char)
    (resp : GeminiResponse)
    (hmt : mt ∈ supportedMimeTypes) (hok : resp.ok = true) :
    (getTextPart resp.body = none →
      (analyzeImageWithGemini b64 mt resp).1 =
        Except.error GeminiError.emptyResponse) ∧
    (∀ s, getTextPart resp.body = some (Json.str s) → s ≠ [] →
      (analyzeImageWithGemini b64 mt resp).1 = extractMeal s) := by
  constructor
  · intro h
    exact analyze_falsy_text b64 mt resp hmt hok (by rw [h]; rfl)
  · intro s hs hne
    exact analyze_str_text b64 mt resp hmt hok s hs hne

/-- C7 witness: a success response with no candidates fails with
`EmptyResponse`. -/
theorem claim_text_part_extraction_witness :
    (analyzeImageWithGemini ("AAAA".toList) ("image/jpeg".toList)
      ⟨true, "OK".toList, Json.obj [("candidates".toList, Json.arr [])]⟩).1 =
      Except.error GeminiError.emptyResponse :=
  (claim_text_part_extraction _ _ _ (by decide) rfl).1 rfl

/-- C10: a present but empty text part is treated like an absent one:
the call fails with `EmptyResponse`, not `MalformedPayload`. -/
theorem claim_empty_string_text (b64 mt : List Char) (resp : GeminiResponse)
    (hmt : mt ∈ supportedMimeTypes) (hok : resp.ok = true)
    (ht : getTextPart resp.body = some (Json.str [])) :
    (analyzeImageWithGemini b64 mt resp).1 =
      Except.error GeminiError.emptyResponse :=
  analyze_falsy_text b64 mt resp hmt hok (by rw [ht]; rfl)

/-- C10 witness: a concrete success response whose text part is the
empty string. -/
theorem claim_empty_string_text_witness :
    (analyzeImageWithGemini ("AAAA".toList) ("image/jpeg".toList)
      ⟨true, "OK".toList, Json.obj [("candidates".toList, Json.arr [Json.obj
        [("content".toList, Json.obj [("parts".toList, Json.arr [Json.obj
          [("text".toList, Json.str [])]])])]])]⟩).1 =
      Except.error GeminiError.emptyResponse :=
  claim_empty_string_text _ _ _ (by decide) rfl rfl

/-- C8: upstream text containing neither `\x7b` nor `\x7d` makes
`analyze` fail with `MalformedPayload` (carrying that raw text), and
with no other outcome. -/
theorem claim_no_brace_malformed (b64 mt : List Char)
    (resp : GeminiResponse) (s : List Char)
    (hmt : mt ∈ supportedMimeTypes) (hok : resp.ok = true)
    (hs : getTextPart resp.body = some (Json.str s)) (hne : s ≠ [])
    (hob : '\x7b' ∉ s) (hcb : '\x7d' ∉ s) :
    (analyzeImageWithGemini b64 mt resp).1 =
      Except.error (GeminiError.malformedPayload (Json.str s)) := by
  rw [analyze_str_text b64 mt resp hmt hok s hs hne,
    extractMeal_no_braces s hob hcb]

/-- C8 witness: a brace-free text reply. -/
theorem claim_no_brace_malformed_witness :
    (analyzeImageWithGemini ("AAAA".toList) ("image/jpeg".toList)
      ⟨true, "OK".toList, Json.obj [("candidates".toList, Json.arr [Json.obj
        [("content".toList, Json.obj [("parts".toList, Json.arr [Json.obj
          [("text".toList, Json.str ("I cannot tell.".toList))]])])]])]⟩).1 =
      Except.error (GeminiError.malformedPayload
        (Json.str ("I cannot tell.".toList))) :=
  claim_no_brace_malformed _ _ _ _ (by decide) rfl rfl
    (by decide) (by decide) (by decide)

/-- C6 counterexample: the fixed instruction's embedded JSON template
asks for the key `meal_name` (together with description, calories,
protein_g, carbs_g, fat_g); it contains no key `name`, contrary to the
claimed key list. -/
theorem claim_request_shape_counterexample :
    promptTemplateKeys = some
      ["meal_name".toList, "description".toList, "calories".toList,
       "protein_g".toList, "carbs_g".toList, "fat_g".toList] ∧
    ("name".toList) ∉
      ["meal_name".toList, "description".toList, "calories".toList,
       "protein_g".toList, "carbs_g".toList, "fat_g".toList] :=
  ⟨rfl, by decide⟩

/-- C6 (amended): every invocation that passes validation submits a
single-turn request whose parts are the fixed instruction and the
inlined base64 image with its declared media type, and the fixed
instruction asks for a JSON object with keys meal_name, description,
calories, protein_g, carbs_g, fat_g. -/
theorem claim_request_shape (b64 mt : List Char) (resp : GeminiResponse)
    (hmt : mt ∈ supportedMimeTypes) :
    (analyzeImageWithGemini b64 mt resp).2 = some (buildGeminiRequest mt b64) ∧
    jget (buildGeminiRequest mt b64) ("contents".toList) =
      some (Json.arr [Json.obj [("parts".toList, Json.arr [
        Json.obj [("text".toList, Json.str mealRecognitionPrompt)],
        Json.obj [("inline_data".toList, Json.obj [
          ("mime_type".toList, Json.str mt),
          ("data".toList, Json.str b64)])]])]]) ∧
    promptTemplateKeys = some
      ["meal_name".toList, "description".toList, "calories".toList,
       "protein_g".toList, "carbs_g".toList, "fat_g".toList] :=
  ⟨analyze_mem_snd b64 mt resp hmt, rfl, rfl⟩

/-- C6 witness: the request for a concrete JPEG invocation. -/
theorem claim_request_shape_witness :
    (analyzeImageWithGemini ("AAAA".toList) ("image/jpeg".toList)
      ⟨true, "OK".toList, Json.null⟩).2 =
      some (buildGeminiRequest ("image/jpeg".toList) ("AAAA".toList)) :=
  (claim_request_shape ("AAAA".toList) ("image/jpeg".toList)
    ⟨true, "OK".toList, Json.null⟩ (by decide)).1

/-- C2 counterexample: on the reply text `\x7d5\x7b` (whose last
`\x7d` precedes its first `\x7b`) the code's extraction succeeds with
the number 5 — JavaScript's `substring` swaps its endpoints, slicing
out the text strictly between the braces — whereas the extraction the
claim describes has no first-`\x7b`-to-last-`\x7d` substring and must
fail with `MalformedPayload`. -/
theorem claim_extraction_algorithm_counterexample :
    (analyzeImageWithGemini ("AAAA".toList) ("image/jpeg".toList)
      ⟨true, "OK".toList, Json.obj [("candidates".toList, Json.arr [Json.obj
        [("content".toList, Json.obj [("parts".toList, Json.arr [Json.obj
          [("text".toList, Json.str ("\x7d5\x7b".toList))]])])]])]⟩).1 =
      Except.ok (Json.num 5) ∧
    specExtractMeal ("\x7d5\x7b".toList) =
      Except.error (GeminiError.malformedPayload
        (Json.str ("\x7d5\x7b".toList))) ∧
    extractMeal ("\x7d5\x7b".toList) ≠ specExtractMeal ("\x7d5\x7b".toList) :=
  ⟨rfl, rfl, fun h => Except.noConfusion h⟩

/-- C2 (amended): whenever the cleaned text has its first `\x7b` at or
before its last `\x7d`, the code's extraction agrees exactly with the
spec-described one — slice that inclusive span, parse it, and on
failure report `MalformedPayload` carrying the raw text. -/
theorem claim_extraction_algorithm (text : List Char)
    (h : ∃ i j, firstIdx (jsTrim (stripFences text)) '\x7b' = some i ∧
         lastIdx (jsTrim (stripFences text)) '\x7d' = some j ∧ i ≤ j) :
    extractMeal text = specExtractMeal text := by
  obtain ⟨i, j, hi, hj, hij⟩ := h
  have hsub : jsSubstring (jsTrim (stripFences text)) (i : Int) ((j : Int) + 1) =
      ((jsTrim (stripFences text)).take (j + 1)).drop i := by
    have h1 : ((i : Int)).toNat = i := by omega
    have h2 : (((j : Int)) + 1).toNat = j + 1 := by omega
    rw [jsSubstring]
    simp only [h1, h2]
    rw [if_pos (by omega)]
  simp only [extractMeal, specExtractMeal, jsonCandidate, jsIndexOf,
    jsLastIndexOf, hi, hj, hsub, if_pos hij]

/-- C2 witness: on a plain JSON object payload the two extractions
coincide. -/
theorem claim_extraction_algorithm_witness :
    extractMeal ("\x7b\"a\":1\x7d".toList) =
      specExtractMeal ("\x7b\"a\":1\x7d".toList) :=
  claim_extraction_algorithm _ ⟨0, 6, rfl, rfl, by omega⟩

/-! ## The wire text encoding (claim C9) -/

/-- The base64 alphabet. -/
def b64Alphabet : List Char :=
  ("ABCDEFGHIJKLMNOPQRSTUVWXYZabcdefghijklmnopqrstuvwxyz0123456789+/").toList

/-- The base64 digit for a 6-bit value. -/
def b64Char (n : Nat) : Char := b64Alphabet.getD n 'A'

/-- The 6-bit value of a base64 digit, if any. -/
def b64Val (c : Char) : Option Nat := firstIdx b64Alphabet c

/-- Modelled from the spec: the transcoding of the image bytes "to a
base64 text encoding (the wire format required by the AI endpoint)" is
performed by the platform's `File.base64()`, whose implementation is
not part of this repository; it is modelled as standard RFC 4648
base64 with `=` padding.  Bytes are naturals below 256. -/
def b64Encode : List Nat → List Char
  | [] => []
  | [a] => [b64Char (a / 4), b64Char (a % 4 * 16), '=', '=']
  | [a, b] => [b64Char (a / 4), b64Char (a % 4 * 16 + b / 16),
               b64Char (b % 16 * 4), '=']
  | a :: b :: c :: rest =>
    b64Char (a / 4) :: b64Char (a % 4 * 16 + b / 16) ::
    b64Char (b % 16 * 4 + c / 64) :: b64Char (c % 64) :: b64Encode rest

/-- Modelled from the spec: the matching base64 decoding ("decoding it
back yields the original bytes"). -/
def b64Decode : List Char → Option (List Nat)
  | [] => some []
  | c1 :: c2 :: c3 :: c4 :: rest => do
    let v1 ← b64Val c1
    let v2 ← b64Val c2
    if c3 = '=' then
      if c4 = '=' ∧ rest = [] then some [v1 * 4 + v2 / 16] else none
    else do
      let v3 ← b64Val c3
      if c4 = '=' then
        if rest = [] then some [v1 * 4 + v2 / 16, v2 % 16 * 16 + v3 / 4]
        else none
      else do
        let v4 ← b64Val c4
        let ds ← b64Decode rest
        some ((v1 * 4 + v2 / 16) :: (v2 % 16 * 16 + v3 / 4) ::
              (v3 % 4 * 64 + v4) :: ds)
  | _ => none

lemma b64Val_b64Char : ∀ n, n < 64 → b64Val (b64Char n) = some n := by decide

lemma b64Char_ne_pad : ∀ n, n < 64 → b64Char n ≠ '=' := by decide

/-- C9: encoding any byte sequence to the wire text encoding and
decoding it back yields the original bytes. -/
theorem claim_base64_roundtrip : ∀ bs : List Nat, (∀ b ∈ bs, b < 256) →
    b64Decode (b64Encode bs) = some bs := by
  intro bs
  induction bs using b64Encode.induct with
  | case1 => intro _; rfl
  | case2 a =>
    intro h
    have ha : a < 256 := h a (by simp)
    have e : a / 4 * 4 + a % 4 * 16 / 16 = a := by omega
    simp [b64Encode, b64Decode,
      b64Val_b64Char (a / 4) (by omega),
      b64Val_b64Char (a % 4 * 16) (by omega), e]
    omega
  | case3 a b =>
    intro h
    have ha : a < 256 := h a (by simp)
    have hb : b < 256 := h b (by simp)
    have e1 : a / 4 * 4 + (a % 4 * 16 + b / 16) / 16 = a := by omega
    have e2 : (a % 4 * 16 + b / 16) % 16 * 16 + b % 16 * 4 / 4 = b := by omega
    simp [b64Encode, b64Decode,
      b64Val_b64Char (a / 4) (by omega),
      b64Val_b64Char (a % 4 * 16 + b / 16) (by omega),
      b64Val_b64Char (b % 16 * 4) (by omega),
      b64Char_ne_pad (b % 16 * 4) (by omega), e1, e2]
    omega
  | case4 a b c rest ih =>
    intro h
    have ha : a < 256 := h a (by simp)
    have hb : b < 256 := h b (by simp)
    have hc : c < 256 := h c (by simp)
    have hrest : ∀ x ∈ rest, x < 256 := fun x hx => h x (by simp [hx])
    have e1 : a / 4 * 4 + (a % 4 * 16 + b / 16) / 16 = a := by omega
    have e2 : (a % 4 * 16 + b / 16) % 16 * 16 + (b % 16 * 4 + c / 64) / 4 = b := by
      omega
    have e3 : (b % 16 * 4 + c / 64) % 4 * 64 + c % 64 = c := by omega
    simp [b64Encode, b64Decode,
      b64Val_b64Char (a / 4) (by omega),
      b64Val_b64Char (a % 4 * 16 + b / 16) (by omega),
      b64Val_b64Char (b % 16 * 4 + c / 64) (by omega),
      b64Val_b64Char (c % 64) (by omega),
      b64Char_ne_pad (b % 16 * 4 + c / 64) (by omega),
      b64Char_ne_pad (c % 64) (by omega),
      ih hrest, e1, e2, e3]

/-- C9 witness: a concrete byte sequence round-trips. -/
theorem claim_base64_roundtrip_witness :
    (∀ b ∈ [77, 101, 97, 108, 33], b < 256) ∧
    b64Decode (b64Encode [77, 101, 97, 108, 33]) =
      some [77, 101, 97, 108, 33] :=
  ⟨by decide, claim_base64_roundtrip _ (by decide)⟩

lemma firstIdx_of_mem (c : Char) :
    ∀ l : List Char, c ∈ l → ∃ k, firstIdx l c = some k := by
  intro l
  induction l with
  | nil => intro h; cases h
  | cons a t ih =>
    intro h
    by_cases hac : a = c
    · exact ⟨0, by rw [firstIdx, if_pos hac]⟩
    · have hct : c ∈ t := by
        rcases List.mem_cons.mp h with h | h
        · exact absurd h.symm hac
        · exact h
      obtain ⟨k, hk⟩ := ih hct
      exact ⟨k + 1, by rw [firstIdx, if_neg hac, hk]; rfl⟩

lemma firstIdx_lt_length (c : Char) :
    ∀ (l : List Char) (k : Nat), firstIdx l c = some k → k < l.length := by
  intro l
  induction l with
  | nil => intro k h; simp [firstIdx] at h
  | cons a t ih =>
    intro k h
    rw [firstIdx] at h
    by_cases hac : a = c
    · rw [if_pos hac] at h
      injection h with h
      simp [← h]
    · rw [if_neg hac] at h
      cases hft : firstIdx t c with
      | none => rw [hft] at h; simp at h
      | some k1 =>
        rw [hft] at h
        simp only [Option.map_some'] at h
        injection h with h
        have := ih k1 hft
        simp only [List.length_cons]
        omega

lemma firstIdx_not_mem_take (ch : Char) :
    ∀ (l : List Char) (i : Nat), firstIdx l ch = some i → ch ∉ l.take i := by
  intro l
  induction l with
  | nil => intro i _h hmem; simp at hmem
  | cons a t ih =>
    intro i h
    rw [firstIdx] at h
    by_cases hac : a = ch
    · rw [if_pos hac] at h
      injection h with h
      simp [← h]
    · rw [if_neg hac] at h
      cases hft : firstIdx t ch with
      | none => rw [hft] at h; simp at h
      | some k1 =>
        rw [hft] at h
        simp only [Option.map_some'] at h
        injection h with h
        subst h
        intro hmem
        rw [List.take_succ_cons] at hmem
        rcases List.mem_cons.mp hmem with h1 | h1
        · exact hac h1.symm
        · exact ih k1 hft h1

lemma firstIdx_append_left (c : Char) :
    ∀ (A B : List Char) (k : Nat),
      firstIdx A c = some k → firstIdx (A ++ B) c = some k := by
  intro A
  induction A with
  | nil => intro B k h; simp [firstIdx] at h
  | cons a t ih =>
    intro B k h
    rw [firstIdx] at h
    rw [List.cons_append, firstIdx]
    by_cases hac : a = c
    · rwa [if_pos hac] at h ⊢
    · rw [if_neg hac] at h ⊢
      cases hft : firstIdx t c with
      | none => rw [hft] at h; simp at h
      | some k1 => rw [hft] at h; rw [ih B k1 hft]; exact h

lemma firstIdx_append_right (c : Char) :
    ∀ (A B : List Char), c ∉ A → ∀ k, firstIdx B c = some k →
      firstIdx (A ++ B) c = some (A.length + k) := by
  intro A
  induction A with
  | nil => intro B _ k h; simpa using h
  | cons a t ih =>
    intro B hA k h
    rw [List.mem_cons] at hA
    push_neg at hA
    rw [List.cons_append, firstIdx, if_neg (fun hac => hA.1 hac.symm),
      ih B hA.2 k h]
    simp only [Option.map_some', List.length_cons]
    congr 1
    omega

lemma lastIdx_append_right (c : Char) (A B : List Char)
    (j : Nat) (hj : lastIdx B c = some j) :
    lastIdx (A ++ B) c = some (A.length + j) := by
  rw [lastIdx] at hj ⊢
  cases hk : firstIdx B.reverse c with
  | none => rw [hk] at hj; simp at hj
  | some k =>
    rw [hk] at hj
    simp only [Option.map_some'] at hj
    injection hj with hj
    have hklt : k < B.length := by
      have := firstIdx_lt_length c B.reverse k hk
      simpa using this
    rw [List.reverse_append, firstIdx_append_left c B.reverse A.reverse k hk]
    simp only [Option.map_some', List.length_append]
    congr 1
    omega

lemma append_nl_eq_split : ∀ pre : List Char, '\n' ∉ pre →
    ∀ (rest t r1 : List Char), rest ++ '\n' :: t = pre ++ r1 →
      ∃ r2, rest = pre ++ r2 := by
  intro pre
  induction pre with
  | nil => intro _ rest t r1 _; exact ⟨rest, by simp⟩
  | cons p pre1 ih =>
    intro hnl rest t r1 h
    rw [List.mem_cons] at hnl
    push_neg at hnl
    cases rest with
    | nil =>
      rw [List.nil_append, List.cons_append] at h
      injection h with h1 h2
      exact absurd h1 hnl.1
    | cons a rest1 =>
      rw [List.cons_append, List.cons_append] at h
      injection h with h1 h2
      obtain ⟨r2, hr⟩ := ih hnl.2 rest1 t r1 h2
      exact ⟨r2, by rw [List.cons_append, h1, hr]⟩

lemma stripFences_fence7 (rest : List Char) :
    stripFences ('\x60' :: '\x60' :: '\x60' :: 'j' :: 's' :: 'o' :: 'n' :: rest) =
      stripFences rest := rfl

lemma stripFences_fence3 (rest : List Char)
    (hno : ∀ r1 : List Char, rest ≠ 'j' :: 's' :: 'o' :: 'n' :: r1) :
    stripFences ('\x60' :: '\x60' :: '\x60' :: rest) = stripFences rest := by
  rw [stripFences.eq_def]
  split
  · rename_i x1 rest1 heq
    injection heq with e1 heq; injection heq with e2 heq
    injection heq with e3 heq
    exact absurd heq (hno rest1)
  · rename_i x1 rest1 hex heq
    injection heq with e1 heq; injection heq with e2 heq
    injection heq with e3 heq
    rw [heq]
  · rename_i x1 c1 rest1 hex7 hex3 heq
    injection heq with e1 heq
    exact (hex3 rest e1.symm heq.symm).elim
  · rename_i x1 heq
    exact (List.cons_ne_nil _ _ heq).elim

lemma stripFences_cons_backtick (rest : List Char)
    (hp1 : ∀ r1 : List Char, rest ≠ '\x60' :: '\x60' :: 'j' :: 's' :: 'o' :: 'n' :: r1)
    (hp2 : ∀ r1 : List Char, rest ≠ '\x60' :: '\x60' :: r1) :
    stripFences ('\x60' :: rest) = '\x60' :: stripFences rest := by
  rw [stripFences.eq_def]
  split
  · rename_i x1 rest1 heq
    injection heq with e1 heq
    exact absurd heq (hp1 rest1)
  · rename_i x1 rest1 hex heq
    injection heq with e1 heq
    exact absurd heq (hp2 rest1)
  · rename_i x1 c1 rest1 hex7 hex3 heq
    injection heq with e1 heq
    rw [← e1, ← heq]
  · rename_i x1 heq
    exact (List.cons_ne_nil _ _ heq).elim

lemma stripFences_cons_ne (c : Char) (rest : List Char) (hc : c ≠ '\x60') :
    stripFences (c :: rest) = c :: stripFences rest := by
  rw [stripFences.eq_def]
  split
  · rename_i x1 rest1 heq
    injection heq with e1 heq
    exact absurd e1 hc
  · rename_i x1 rest1 hex heq
    injection heq with e1 heq
    exact absurd e1 hc
  · rename_i x1 c1 rest1 hex7 hex3 heq
    injection heq with e1 heq
    rw [← e1, ← heq]
  · rename_i x1 heq
    exact (List.cons_ne_nil _ _ heq).elim

lemma strip_append_nl : ∀ P t : List Char,
    stripFences (P ++ '\n' :: t) = stripFences P ++ '\n' :: stripFences t := by
  intro P
  induction P using stripFences.induct with
  | case1 rest ih =>
    intro t
    simp only [List.cons_append, stripFences_fence7]
    exact ih t
  | case2 rest hno ih =>
    intro t
    have hno1 : ∀ r1 : List Char, rest ++ '\n' :: t ≠ 'j' :: 's' :: 'o' :: 'n' :: r1 := by
      intro r1 h
      obtain ⟨r2, hr⟩ :=
        append_nl_eq_split ['j', 's', 'o', 'n'] (by decide) rest t r1 h
      exact hno r2 hr
    simp only [List.cons_append]
    rw [stripFences_fence3 _ hno1, stripFences_fence3 _ (fun r1 h => hno r1 h)]
    exact ih t
  | case3 c rest h1 h2 ih =>
    intro t
    by_cases hc : c = '\x60'
    · subst hc
      have hp1 : ∀ r1 : List Char,
          rest ++ '\n' :: t ≠ '\x60' :: '\x60' :: 'j' :: 's' :: 'o' :: 'n' :: r1 := by
        intro r1 h
        obtain ⟨r2, hr⟩ := append_nl_eq_split
          ['\x60', '\x60', 'j', 's', 'o', 'n'] (by decide) rest t r1 h
        exact h1 r2 rfl hr
      have hp2 : ∀ r1 : List Char,
          rest ++ '\n' :: t ≠ '\x60' :: '\x60' :: r1 := by
        intro r1 h
        obtain ⟨r2, hr⟩ := append_nl_eq_split
          ['\x60', '\x60'] (by decide) rest t r1 h
        exact h2 r2 rfl hr
      simp only [List.cons_append]
      rw [stripFences_cons_backtick _ hp1 hp2,
        stripFences_cons_backtick _ (fun r1 h => h1 r1 rfl h)
          (fun r1 h => h2 r1 rfl h)]
      rw [ih t, List.cons_append]
    · simp only [List.cons_append]
      rw [stripFences_cons_ne c _ hc, stripFences_cons_ne c _ hc,
        ih t, List.cons_append]
  | case4 =>
    intro t
    rw [List.nil_append, stripFences_cons_ne '\n' t (by decide)]
    rfl

lemma strip_sure (Y : List Char) :
    stripFences ('S' :: 'u' :: 'r' :: 'e' :: '!' :: ' ' :: '\x60' :: '\x60' ::
        '\x60' :: 'j' :: 's' :: 'o' :: 'n' :: '\n' :: Y) =
      'S' :: 'u' :: 'r' :: 'e' :: '!' :: ' ' :: '\n' :: stripFences Y := by
  rw [stripFences_cons_ne 'S' _ (by decide), stripFences_cons_ne 'u' _ (by decide),
    stripFences_cons_ne 'r' _ (by decide), stripFences_cons_ne 'e' _ (by decide),
    stripFences_cons_ne '!' _ (by decide), stripFences_cons_ne ' ' _ (by decide),
    stripFences_fence7, stripFences_cons_ne '\n' _ (by decide)]

lemma trimRight_append_of_ne (A B : List Char) (hB : trimRight B ≠ []) :
    trimRight (A ++ B) = A ++ trimRight B := by
  have hne : (B.reverse.dropWhile isTrimWsB).isEmpty = false := by
    cases h : B.reverse.dropWhile isTrimWsB with
    | nil => exact absurd (by unfold trimRight; rw [h]; rfl) hB
    | cons a t => rfl
  unfold trimRight
  rw [List.reverse_append, List.dropWhile_append, hne]
  simp [List.reverse_append]

lemma trimRight_append_nl (Q : List Char) :
    trimRight (Q ++ ['\n']) = trimRight Q := by
  unfold trimRight
  rw [List.reverse_append]
  simp only [List.reverse_cons, List.reverse_nil, List.nil_append,
    List.singleton_append]
  rw [List.dropWhile_cons_of_pos (by decide)]

lemma mem_of_firstIdx (c : Char) :
    ∀ (l : List Char) (k : Nat), firstIdx l c = some k → c ∈ l := by
  intro l
  induction l with
  | nil => intro k h; simp [firstIdx] at h
  | cons a t ih =>
    intro k h
    rw [firstIdx] at h
    by_cases hac : a = c
    · simp [hac]
    · rw [if_neg hac] at h
      cases hft : firstIdx t c with
      | none => rw [hft] at h; simp at h
      | some k1 => exact List.mem_cons_of_mem a (ih k1 hft)

lemma jsSubstring_subset_take (l : List Char) (a b : Nat) (hba : b ≤ a) :
    ∀ x, x ∈ jsSubstring l (a : Int) (b : Int) → x ∈ l.take a := by
  intro x hx
  simp only [jsSubstring, Int.toNat_natCast] at hx
  by_cases hc : a ≤ b
  · have hab : a = b := Nat.le_antisymm hc hba
    rw [if_pos hc] at hx
    subst hab
    exact (List.drop_subset _ _) hx
  · rw [if_neg hc] at hx
    exact (List.drop_subset _ _) hx

lemma mem_of_mem_jsSubstring (ch : Char) (l : List Char) (a b : Int) :
    ch ∈ jsSubstring l a b → ch ∈ l := by
  intro h
  simp only [jsSubstring] at h
  by_cases hc : a.toNat ≤ b.toNat
  · rw [if_pos hc] at h
    exact List.take_subset _ _ ((List.drop_subset _ _) h)
  · rw [if_neg hc] at h
    exact List.take_subset _ _ ((List.drop_subset _ _) h)

lemma parseCore_elems_arr :
    ∀ (f : Nat) (acc : List Json) (s : List Char) (v : Json) (r : List Char),
      parseCore f (PMode.elems acc) s = some (v, r) → ∃ xs, v = Json.arr xs := by
  intro f
  induction f with
  | zero => intro acc s v r h; simp [parseCore] at h
  | succ f ih =>
    intro acc s v r h
    rw [parseCore] at h
    split at h
    · split at h
      · exact ih _ _ _ _ h
      · simp only [Option.some.injEq, Prod.mk.injEq] at h
        exact ⟨_, h.1.symm⟩
      · simp at h
    · simp at h

lemma parseVal_obj_head (f : Nat) (s : List Char)
    (fs : List (List Char × Json)) (r : List Char)
    (h : parseCore f PMode.val s = some (Json.obj fs, r)) :
    ∃ r1, skipWs s = '\x7b' :: r1 := by
  cases f with
  | zero => simp [parseCore] at h
  | succ f =>
    rw [parseCore] at h
    split at h
    · simp at h
    · simp at h
    · simp at h
    · split at h
      · simp at h
      · simp at h
    · rename_i r0 heq
      split at h
      · simp at h
      · obtain ⟨xs, hxs⟩ := parseCore_elems_arr _ _ _ _ _ h
        cases hxs
    · rename_i r0 heq
      exact ⟨r0, heq⟩
    · split at h
      · simp at h
      · simp at h

lemma parseJson_obj_mem (s : List Char) (fs : List (List Char × Json))
    (h : parseJson s = some (Json.obj fs)) : '\x7b' ∈ s := by
  unfold parseJson at h
  split at h
  · rename_i j r heq
    split at h
    · injection h with h1
      subst h1
      obtain ⟨r1, hr1⟩ := parseVal_obj_head _ _ _ _ heq
      have hmem : '\x7b' ∈ skipWs s := by rw [hr1]; simp
      exact (List.dropWhile_sublist _).subset hmem
    · simp at h
  · simp at h

lemma jsSubstring_subset_int (l : List Char) (a b : Int)
    (hba : b.toNat ≤ a.toNat) :
    ∀ x, x ∈ jsSubstring l a b → x ∈ l.take a.toNat := by
  intro x hx
  simp only [jsSubstring] at hx
  by_cases hc : a.toNat ≤ b.toNat
  · have hab : a.toNat = b.toNat := Nat.le_antisymm hc hba
    rw [if_pos hc] at hx
    rw [hab]
    exact (List.drop_subset _ _) hx
  · rw [if_neg hc] at hx
    exact (List.drop_subset _ _) hx

/-- C3: if the tolerant extraction maps a payload to a meal record
(a JSON object), then the spec's example wrapping — prefixing
`"Sure! "` prose and enclosing the payload in `` ```json ``/`` ``` ``
fences — still extracts the identical record. -/
theorem claim_fence_noise_invariance (P : List Char)
    (fs : List (List Char × Json))
    (h : extractMeal P = Except.ok (Json.obj fs)) :
    extractMeal (wrapNoise P) = Except.ok (Json.obj fs) := by
  have hparse : parseJson (jsonCandidate P) = some (Json.obj fs) := by
    unfold extractMeal at h
    split at h
    · rename_i j heq
      injection h with h1
      rw [heq, h1]
    · simp at h
  have hmem : '\x7b' ∈ jsonCandidate P := parseJson_obj_mem _ _ hparse
  have hmemc : '\x7b' ∈ jsTrim (stripFences P) :=
    mem_of_mem_jsSubstring _ _ _ _ hmem
  obtain ⟨i, hfi⟩ := firstIdx_of_mem _ _ hmemc
  have hIdx : jsIndexOf (jsTrim (stripFences P)) '\x7b' = (i : Int) := by
    rw [jsIndexOf, hfi]
  cases hli : lastIdx (jsTrim (stripFences P)) '\x7d' with
  | none =>
    exfalso
    have hLIdx : jsLastIndexOf (jsTrim (stripFences P)) '\x7d' = -1 := by
      rw [jsLastIndexOf, hli]
    have hx : '\x7b' ∈ jsSubstring (jsTrim (stripFences P)) (i : Int) (-1 + 1) := by
      rw [← hIdx, ← hLIdx]
      exact hmem
    have hsub := jsSubstring_subset_int _ _ _ (by omega) '\x7b' hx
    have e : ((i : Int)).toNat = i := by omega
    rw [e] at hsub
    exact firstIdx_not_mem_take _ _ _ hfi hsub
  | some j =>
    have hLIdx : jsLastIndexOf (jsTrim (stripFences P)) '\x7d' = (j : Int) := by
      rw [jsLastIndexOf, hli]
    have hij : i ≤ j := by
      by_contra hij
      push_neg at hij
      have hx : '\x7b' ∈
          jsSubstring (jsTrim (stripFences P)) (i : Int) ((j : Int) + 1) := by
        rw [← hIdx, ← hLIdx]
        exact hmem
      have hsub := jsSubstring_subset_int _ _ _ (by omega) '\x7b' hx
      have e : ((i : Int)).toNat = i := by omega
      rw [e] at hsub
      exact firstIdx_not_mem_take _ _ _ hfi hsub
    have hcandP : jsonCandidate P =
        ((jsTrim (stripFences P)).take (j + 1)).drop i := by
      show jsSubstring (jsTrim (stripFences P))
        (jsIndexOf (jsTrim (stripFences P)) '\x7b')
        (jsLastIndexOf (jsTrim (stripFences P)) '\x7d' + 1) = _
      rw [hIdx, hLIdx]
      simp only [jsSubstring]
      have e1 : ((i : Int)).toNat = i := by omega
      have e2 : (((j : Int)) + 1).toNat = j + 1 := by omega
      rw [e1, e2, if_pos (by omega)]
    have hQne : trimRight (stripFences P) ≠ [] := by
      intro h0
      have hc0 : jsTrim (stripFences P) = [] := by
        unfold jsTrim
        rw [h0]
        rfl
      rw [hc0] at hmemc
      simp at hmemc
    have hstrip : stripFences (wrapNoise P) =
        'S' :: 'u' :: 'r' :: 'e' :: '!' :: ' ' :: '\n' ::
          (stripFences P ++ ['\n']) := by
      have h1 : stripFences (wrapNoise P) =
          stripFences ('S' :: 'u' :: 'r' :: 'e' :: '!' :: ' ' :: '\x60' ::
            '\x60' :: '\x60' :: 'j' :: 's' :: 'o' :: 'n' :: '\n' ::
            (P ++ '\n' :: '\x60' :: '\x60' :: '\x60' :: [])) := rfl
      rw [h1, strip_sure, strip_append_nl]
      rfl
    have htrim : jsTrim (stripFences (wrapNoise P)) =
        ('S' :: 'u' :: 'r' :: 'e' :: '!' :: ' ' :: '\n' :: []) ++
          trimRight (stripFences P) := by
      rw [hstrip]
      have h2 : ('S' :: 'u' :: 'r' :: 'e' :: '!' :: ' ' :: '\n' ::
            (stripFences P ++ ['\n'])) =
          ('S' :: 'u' :: 'r' :: 'e' :: '!' :: ' ' :: '\n' :: []) ++
            (stripFences P ++ ['\n']) := rfl
      rw [h2]
      unfold jsTrim
      rw [trimRight_append_of_ne _ _ (by rw [trimRight_append_nl]; exact hQne),
        trimRight_append_nl]
      simp only [List.cons_append, List.nil_append]
      rw [List.dropWhile_cons_of_neg (by decide)]
    have hdecomp : trimRight (stripFences P) =
        (trimRight (stripFences P)).takeWhile isTrimWsB ++
          jsTrim (stripFences P) :=
      (List.takeWhile_append_dropWhile isTrimWsB _).symm
    have hclw : jsTrim (stripFences (wrapNoise P)) =
        (('S' :: 'u' :: 'r' :: 'e' :: '!' :: ' ' :: '\n' :: []) ++
            (trimRight (stripFences P)).takeWhile isTrimWsB) ++
          jsTrim (stripFences P) := by
      rw [htrim]
      conv_lhs => rw [hdecomp]
      rw [List.append_assoc]
    have hpre_ob : '\x7b' ∉
        (('S' :: 'u' :: 'r' :: 'e' :: '!' :: ' ' :: '\n' :: []) ++
          (trimRight (stripFences P)).takeWhile isTrimWsB) := by
      intro hx
      rcases List.mem_append.mp hx with hx | hx
      · exact (by decide :
          ¬('\x7b' ∈ ('S' :: 'u' :: 'r' :: 'e' :: '!' :: ' ' :: '\n' :: []))) hx
      · have h3 := List.mem_takeWhile_imp hx
        simp [isTrimWsB] at h3
    have hfiW := firstIdx_append_right '\x7b' _ _ hpre_ob i hfi
    have hliW := lastIdx_append_right '\x7d'
      (('S' :: 'u' :: 'r' :: 'e' :: '!' :: ' ' :: '\n' :: []) ++
        (trimRight (stripFences P)).takeWhile isTrimWsB)
      (jsTrim (stripFences P)) j hli
    have hcandW : jsonCandidate (wrapNoise P) =
        ((jsTrim (stripFences P)).take (j + 1)).drop i := by
      show jsSubstring (jsTrim (stripFences (wrapNoise P)))
        (jsIndexOf (jsTrim (stripFences (wrapNoise P))) '\x7b')
        (jsLastIndexOf (jsTrim (stripFences (wrapNoise P))) '\x7d' + 1) = _
      rw [hclw]
      simp only [jsIndexOf, jsLastIndexOf, hfiW, hliW]
      simp only [jsSubstring]
      have e1 : (((('S' :: 'u' :: 'r' :: 'e' :: '!' :: ' ' :: '\n' :: []) ++
          (trimRight (stripFences P)).takeWhile isTrimWsB).length + i : Nat) :
            Int).toNat =
          (('S' :: 'u' :: 'r' :: 'e' :: '!' :: ' ' :: '\n' :: []) ++
            (trimRight (stripFences P)).takeWhile isTrimWsB).length + i := by
        omega
      have e2 : ((((('S' :: 'u' :: 'r' :: 'e' :: '!' :: ' ' :: '\n' :: []) ++
          (trimRight (stripFences P)).takeWhile isTrimWsB).length + j : Nat) :
            Int) + 1).toNat =
          (('S' :: 'u' :: 'r' :: 'e' :: '!' :: ' ' :: '\n' :: []) ++
            (trimRight (stripFences P)).takeWhile isTrimWsB).length + (j + 1) := by
        omega
      rw [e1, e2, if_pos (by omega), List.take_append, List.drop_append]
    unfold extractMeal
    rw [hcandW, ← hcandP, hparse]

/-- C3 witness: a concrete object payload survives the example
wrapping. -/
theorem claim_fence_noise_invariance_witness :
    extractMeal ("\x7b\"a\":1\x7d".toList) =
      Except.ok (Json.obj [("a".toList, Json.num 1)]) ∧
    extractMeal (wrapNoise ("\x7b\"a\":1\x7d".toList)) =
      Except.ok (Json.obj [("a".toList, Json.num 1)]) :=
  ⟨rfl, claim_fence_noise_invariance _ _ rfl⟩
